import Mathlib

/-!
Shallow embedding of the `access-mini` library (`src/index.ts`): a small
attribute-based access-control helper consisting of a resource→definition
registry (`createPermissions`), a builder-style accessor (`get`), and a
dual-shape direct dispatcher (`can`).

JavaScript runtime values that flow through the dispatcher are modelled by
`Value`: `undefined`, `null`, booleans, numbers, strings, promise-wrapped
values (a pending result, never resolved by the library), the
`{ actor, entity, attributes }` argument object (`vArgs`, mirroring the
source's `Args` type), and arbitrary foreign objects identified by a tag
(`vObj`, so that "returns the exact same object" is expressible).

A JS `Map<string, _>` and a `Record<string, _>` are modelled as association
lists in insertion order; `Map.set` overwrites in place or appends
(`mapSet`), lookups take the first (unique) matching key.  An omitted
trailing JS argument is `undefined`, so the embedded `can` always receives a
third argument, with `Value.vUndefined` standing for "not supplied" exactly
as in JS where `ctx === undefined` cannot distinguish the two.  Thrown
errors are modelled by `Except PermError`; `PermError.message` reproduces
the thrown `Error` message strings of the source.
-/

namespace AccessMini

/-- A JavaScript runtime value, as observed by this library. -/
inductive Value where
  | vUndefined : Value
  | vNull : Value
  | vBool : Bool → Value
  | vNum : Int → Value
  | vStr : String → Value
  | vArgs : Value → Value → Value → Value
  | vObj : Nat → Value
  | vPromise : Value → Value
deriving DecidableEq, Repr

/-- An action handler: one JS function of one argument (`ActionHandler`). -/
abbrev Handler : Type := Value → Value

/-- `ActionMap`: a `Record<string, ActionHandler>` in insertion order. -/
abbrev ActionMap : Type := List (String × Handler)

/-- `PermissionDefinition`: a resource name plus its action handlers. -/
structure PermissionDefinition where
  resource : String
  handlers : ActionMap

/-- `createPermissionDefinition(resource, handlers)`: returns the two inputs
verbatim. -/
def createPermissionDefinition (resource : String) (handlers : ActionMap) :
    PermissionDefinition :=
  { resource := resource, handlers := handlers }

/-- The registry: the `Map<string, PermissionDefinition>` closed over by the
API, in insertion order. -/
abbrev Registry : Type := List (String × PermissionDefinition)

/-- `Map.get`: the value at the first (unique) matching key. -/
def mapGet (m : List (String × α)) (k : String) : Option α :=
  (m.find? (fun p => p.1 = k)).map (·.2)

/-- `Map.set`: overwrite the (unique) entry in place when the key is
present, otherwise append a new entry at the end. -/
def mapSet (m : List (String × α)) (k : String) (v : α) :
    List (String × α) :=
  match m with
  | [] => [(k, v)]
  | p :: t => if p.1 = k then (k, v) :: t else p :: mapSet t k v

/-- `Record` lookup `handlers[action]` (and the `action in handlers` test is
this lookup being `some`). -/
def lookupHandler (h : ActionMap) (action : String) : Option Handler :=
  (h.find? (fun p => p.1 = action)).map (·.2)

/-- The `{ actor, entity, attributes }` object built by the synthesized
invoker methods. -/
def mkArgs (actor entity attributes : Value) : Value :=
  Value.vArgs actor entity attributes

/-- The two error kinds the library throws. -/
inductive PermError where
  | unknownResource : String → PermError
  | unknownAction : String → String → PermError
deriving DecidableEq, Repr

/-- The thrown `Error` message, exactly as in the source. -/
def PermError.message : PermError → String
  | .unknownResource resource =>
      "No permission definition for resource: " ++ resource
  | .unknownAction action resource =>
      "No handler for action '" ++ action ++ "' on resource '" ++ resource ++ "'"

/-- The object returned by `get(resource)`: its single member `can` maps an
actor to the invoker object, a record of methods `(entity?, attributes?) →
result`. -/
structure ResourceAccessor where
  can : Value → List (String × (Value → Value → Value))

/-- `get(resource)`: look the resource up, throw when absent, otherwise
return `{ can }` where `can(actor)` synthesizes one method per action that
forwards `{ actor, entity, attributes }` to the stored handler. -/
def get (defs : Registry) (resource : String) :
    Except PermError ResourceAccessor :=
  match mapGet defs resource with
  | none => .error (.unknownResource resource)
  | some d =>
      .ok ⟨fun actor =>
        d.handlers.map (fun p =>
          (p.1, fun entity attributes =>
            p.2 (mkArgs actor entity attributes)))⟩

/-- The result of a `can` call: either the single handler's return value
(three-argument shape) or the action object of zero-argument closures
(batch shape). -/
inductive CanOutcome where
  | single : Value → CanOutcome
  | batch : List (String × (Unit → Value)) → CanOutcome

/-- `can(resource, actionOrCtx, ctx?)`: resolve the resource (throw when
absent); when `actionOrCtx` is a string and `ctx !== undefined` run the
single-action shape (throw when the action is absent, else call that
handler on `ctx`); otherwise build the action object whose closures call
each handler on `actionOrCtx` itself. -/
def can (defs : Registry) (resource : String) (actionOrCtx ctx : Value) :
    Except PermError CanOutcome :=
  match mapGet defs resource with
  | none => .error (.unknownResource resource)
  | some d =>
      match actionOrCtx with
      | Value.vStr action =>
          if ctx = Value.vUndefined then
            .ok (.batch (d.handlers.map (fun p =>
              (p.1, fun _ => p.2 actionOrCtx))))
          else
            match lookupHandler d.handlers action with
            | none => .error (.unknownAction action resource)
            | some handler => .ok (.single (handler ctx))
      | _ =>
          .ok (.batch (d.handlers.map (fun p =>
            (p.1, fun _ => p.2 actionOrCtx))))

/-- `createPermissions(initialDefs)`: fold the definitions into a fresh map
keyed by resource name (later entries overwrite earlier ones). -/
def createPermissions (initialDefs : List PermissionDefinition) : Registry :=
  initialDefs.foldl (fun m d => mapSet m d.resource d) []

/-- The caller expression `get(R).can(actor)[A](entity, attributes)`:
`none` when the resource resolution fails or the invoker has no method `A`. -/
def builderPath (defs : Registry) (resource action : String)
    (actor entity attributes : Value) : Option Value :=
  match get defs resource with
  | .error _ => none
  | .ok acc =>
      match (acc.can actor).find? (fun p => p.1 = action) with
      | none => none
      | some p => some (p.2 entity attributes)

/-- The caller expression `can(R, A, ctx)` when it produces the single
handler result (`none` on a throw or on the batch shape). -/
def singlePath (defs : Registry) (resource action : String) (ctx : Value) :
    Option Value :=
  match can defs resource (Value.vStr action) ctx with
  | .ok (.single v) => some v
  | _ => none

/-- The caller expression `can(R, ctx)[A]()`: `none` when the resolution
fails, the single shape was taken, or the action object has no key `A`. -/
def batchPath (defs : Registry) (resource : String) (ctx : Value)
    (action : String) : Option Value :=
  match can defs resource ctx Value.vUndefined with
  | .ok (.batch acts) =>
      match acts.find? (fun p => p.1 = action) with
      | none => none
      | some p => some (p.2 ())
  | .ok (.single _) => none
  | .error _ => none

/-- The definition the spec says wins for a resource name: the latest one in
the input sequence carrying that name.  Stated from the spec's words, to be
compared with what `createPermissions` builds. -/
def latestDefinition (initialDefs : List PermissionDefinition)
    (resource : String) : Option PermissionDefinition :=
  initialDefs.reverse.find? (fun d => d.resource = resource)

/-! ### Basic lemmas about the association-list maps -/

lemma find?_fst_map {α β : Type} (g : String × α → β) (l : List (String × α))
    (a : String) :
    (l.map (fun p => (p.1, g p))).find? (fun q => q.1 = a)
      = (l.find? (fun p => p.1 = a)).map (fun p => (p.1, g p)) := by
  induction l with
  | nil => rfl
  | cons p t ih =>
      by_cases h : p.1 = a
      · simp [List.find?_cons, h]
      · simp [List.find?_cons, h, ih]

lemma mapGet_nil {α : Type} (k : String) :
    mapGet ([] : List (String × α)) k = none := rfl

lemma mapGet_cons {α : Type} (p : String × α) (t : List (String × α))
    (k : String) :
    mapGet (p :: t) k = if p.1 = k then some p.2 else mapGet t k := by
  by_cases h : p.1 = k
  · simp [mapGet, List.find?_cons, h]
  · simp [mapGet, List.find?_cons, h]

lemma mapGet_mapSet {α : Type} (m : List (String × α)) (k k' : String)
    (v : α) :
    mapGet (mapSet m k v) k' = if k' = k then some v else mapGet m k' := by
  induction m with
  | nil =>
      by_cases h : k' = k
      · subst h; simp [mapSet, mapGet_cons]
      · have h2 : ¬ (k = k') := fun e => h e.symm
        simp [mapSet, mapGet_cons, h2, h, mapGet_nil]
  | cons p t ih =>
      by_cases hpk : p.1 = k
      · by_cases hk' : k' = k
        · subst hk'; simp [mapSet, hpk, mapGet_cons]
        · have hk'2 : ¬ (k = k') := fun h2 => hk' h2.symm
          simp [mapSet, hpk, mapGet_cons, hk'2, hk']
      · by_cases hpk' : p.1 = k'
        · have hk' : ¬ (k' = k) := fun h2 => hpk (by rw [hpk', h2])
          simp [mapSet, hpk, mapGet_cons, hpk', hk']
        · simp [mapSet, hpk, mapGet_cons, hpk', ih]

lemma mapGet_foldl_mapSet (ds : List PermissionDefinition) (m : Registry)
    (r : String) :
    mapGet (ds.foldl (fun acc d => mapSet acc d.resource d) m) r
      = (ds.reverse.find? (fun d => d.resource = r)).or (mapGet m r) := by
  induction ds generalizing m with
  | nil => simp
  | cons d t ih =>
      simp only [List.foldl_cons, List.reverse_cons, List.find?_append, ih]
      rw [mapGet_mapSet]
      cases htf : t.reverse.find? (fun d => d.resource = r) with
      | some d' => simp [Option.or]
      | none =>
          by_cases hdr : d.resource = r
          · simp [Option.or, hdr, List.find?_singleton]
          · have hrd : ¬ (r = d.resource) := fun e => hdr e.symm
            simp [Option.or, hdr, hrd, List.find?_singleton]

/-- What `createPermissions` registers under a name is exactly the latest
input definition carrying that name: last-write-wins. -/
lemma mapGet_createPermissions (ds : List PermissionDefinition)
    (r : String) :
    mapGet (createPermissions ds) r = latestDefinition ds r := by
  unfold createPermissions latestDefinition
  rw [mapGet_foldl_mapSet, mapGet_nil, Option.or_none]

lemma lookupHandler_eq_none_iff (hs : ActionMap) (a : String) :
    lookupHandler hs a = none ↔ a ∉ hs.map Prod.fst := by
  unfold lookupHandler
  rw [Option.map_eq_none', List.find?_eq_none]
  constructor
  · intro h hmem
    obtain ⟨p, hp, hpa⟩ := List.mem_map.mp hmem
    have h2 := h p hp
    simp only [decide_eq_true_eq] at h2
    exact h2 hpa
  · intro h p hp
    simp only [decide_eq_true_eq]
    intro e
    exact h (List.mem_map.mpr ⟨p, hp, e⟩)

/-- `get` only observes the registry through the lookup of its resource. -/
lemma get_congr (defs defs' : Registry) (r : String)
    (h : mapGet defs r = mapGet defs' r) : get defs r = get defs' r := by
  unfold get
  rw [h]

/-- `can` only observes the registry through the lookup of its resource. -/
lemma can_congr (defs defs' : Registry) (r : String) (actionOrCtx ctx : Value)
    (h : mapGet defs r = mapGet defs' r) :
    can defs r actionOrCtx ctx = can defs' r actionOrCtx ctx := by
  unfold can
  rw [h]

lemma lookupHandler_some_split (hs : ActionMap) (a : String) (h : Handler)
    (hh : lookupHandler hs a = some h) :
    ∃ p, hs.find? (fun q => q.1 = a) = some p ∧ p.1 = a ∧ p.2 = h := by
  unfold lookupHandler at hh
  obtain ⟨p, hp, hph⟩ := Option.map_eq_some'.mp hh
  have hpa := List.find?_some hp
  simp only [decide_eq_true_eq] at hpa
  exact ⟨p, hp, hpa, hph⟩

/-! ### Evaluation lemmas for the three code paths -/

lemma get_unknown_resource (defs : Registry) (resource : String)
    (hd : mapGet defs resource = none) :
    get defs resource = .error (.unknownResource resource) := by
  unfold get
  rw [hd]

lemma can_unknown_resource (defs : Registry) (resource : String)
    (actionOrCtx ctx : Value) (hd : mapGet defs resource = none) :
    can defs resource actionOrCtx ctx = .error (.unknownResource resource) := by
  unfold can
  rw [hd]

lemma get_eval (defs : Registry) (resource : String)
    (d : PermissionDefinition) (hd : mapGet defs resource = some d) :
    get defs resource = .ok ⟨fun actor =>
      d.handlers.map (fun p =>
        (p.1, fun entity attributes =>
          p.2 (mkArgs actor entity attributes)))⟩ := by
  unfold get
  rw [hd]

lemma can_single_eval (defs : Registry) (resource action : String)
    (ctx : Value) (d : PermissionDefinition) (h : Handler)
    (hd : mapGet defs resource = some d) (hc : ctx ≠ Value.vUndefined)
    (hh : lookupHandler d.handlers action = some h) :
    can defs resource (Value.vStr action) ctx = .ok (.single (h ctx)) := by
  unfold can
  rw [hd]
  simp only [if_neg hc, hh]

lemma can_single_unknown_action (defs : Registry) (resource action : String)
    (ctx : Value) (d : PermissionDefinition)
    (hd : mapGet defs resource = some d) (hc : ctx ≠ Value.vUndefined)
    (hh : lookupHandler d.handlers action = none) :
    can defs resource (Value.vStr action) ctx
      = .error (.unknownAction action resource) := by
  unfold can
  rw [hd]
  simp only [if_neg hc, hh]

lemma can_batch_eval (defs : Registry) (resource : String)
    (actionOrCtx ctx : Value) (d : PermissionDefinition)
    (hd : mapGet defs resource = some d)
    (hno : ∀ s, actionOrCtx = Value.vStr s → ctx = Value.vUndefined) :
    can defs resource actionOrCtx ctx
      = .ok (.batch (d.handlers.map (fun p =>
          (p.1, fun _ => p.2 actionOrCtx)))) := by
  unfold can
  rw [hd]
  cases actionOrCtx with
  | vStr s => simp only [if_pos (hno s rfl)]
  | vUndefined => rfl
  | vNull => rfl
  | vBool b => rfl
  | vNum n => rfl
  | vArgs a e at2 => rfl
  | vObj t => rfl
  | vPromise v => rfl

lemma builderPath_eval (defs : Registry) (resource action : String)
    (actor entity attributes : Value) (d : PermissionDefinition) (h : Handler)
    (hd : mapGet defs resource = some d)
    (hh : lookupHandler d.handlers action = some h) :
    builderPath defs resource action actor entity attributes
      = some (h (mkArgs actor entity attributes)) := by
  obtain ⟨p, hp, hp1, hp2⟩ := lookupHandler_some_split _ _ _ hh
  unfold builderPath
  rw [get_eval _ _ _ hd]
  show (match (d.handlers.map (fun p =>
      (p.1, fun entity attributes =>
        p.2 (mkArgs actor entity attributes)))).find?
        (fun q => q.1 = action) with
    | none => none
    | some q => some (q.2 entity attributes)) = _
  rw [find?_fst_map (fun (p : String × Handler) =>
    (fun (entity attributes : Value) =>
      p.2 (mkArgs actor entity attributes))), hp]
  simp only [Option.map_some', hp2]

lemma batchPath_eval (defs : Registry) (resource action : String)
    (ctx : Value) (d : PermissionDefinition) (h : Handler)
    (hd : mapGet defs resource = some d)
    (hh : lookupHandler d.handlers action = some h) :
    batchPath defs resource ctx action = some (h ctx) := by
  obtain ⟨p, hp, hp1, hp2⟩ := lookupHandler_some_split _ _ _ hh
  unfold batchPath
  rw [can_batch_eval _ _ _ _ _ hd (fun _ _ => rfl)]
  show (match (d.handlers.map (fun (p : String × Handler) =>
      (p.1, fun (_ : Unit) => p.2 ctx))).find? (fun q => q.1 = action) with
    | none => none
    | some q => some (q.2 ())) = _
  rw [find?_fst_map (fun (p : String × Handler) =>
    (fun (_ : Unit) => p.2 ctx)), hp]
  simp only [Option.map_some', hp2]

lemma singlePath_eval (defs : Registry) (resource action : String)
    (ctx : Value) (d : PermissionDefinition) (h : Handler)
    (hd : mapGet defs resource = some d) (hc : ctx ≠ Value.vUndefined)
    (hh : lookupHandler d.handlers action = some h) :
    singlePath defs resource action ctx = some (h ctx) := by
  unfold singlePath
  rw [can_single_eval _ _ _ _ _ _ hd hc hh]

/-! ### The observable signature of the two dispatch shapes -/

/-- A `can` call took the single-action shape: it produced either a bare
handler result or the unknown-action throw.  The batch shape can produce
neither of these. -/
def selectsSingleShape (res : Except PermError CanOutcome) : Prop :=
  (∃ v, res = .ok (.single v)) ∨
  (∃ a r, res = .error (.unknownAction a r))

/-! ### Public calls as a state machine (for the immutability claim) -/

/-- One public call against a permissions object after construction:
`get`, either shape of `can`, or the invocation of a synthesized
builder-method or batch-closure. -/
inductive ApiCall where
  | callGet : String → ApiCall
  | callCan : String → Value → Value → ApiCall
  | callBuilderInvoke : String → String → Value → Value → Value → ApiCall
  | callBatchInvoke : String → Value → String → ApiCall

/-- The observable outcome of one public call. -/
inductive ApiResult where
  | threw : PermError → ApiResult
  | accessor : ResourceAccessor → ApiResult
  | outcome : CanOutcome → ApiResult
  | value : Option Value → ApiResult

/-- Execute one public call: its result, paired with the registry the
permissions object closes over once the call returns.  The source's `get`
and `can` read the closed-over map only through `defs.get`, and neither
they nor the synthesized closures ever call `defs.set`, so every call hands
the map back as it found it. -/
def runCall (defs : Registry) : ApiCall → ApiResult × Registry
  | .callGet r =>
      (match get defs r with
       | .error e => .threw e
       | .ok acc => .accessor acc, defs)
  | .callCan r actionOrCtx ctx =>
      (match can defs r actionOrCtx ctx with
       | .error e => .threw e
       | .ok o => .outcome o, defs)
  | .callBuilderInvoke r a actor entity attributes =>
      (.value (builderPath defs r a actor entity attributes), defs)
  | .callBatchInvoke r ctx a =>
      (.value (batchPath defs r ctx a), defs)

/-- Run a sequence of public calls, threading the closed-over registry. -/
def runCalls (defs : Registry) (calls : List ApiCall) : Registry :=
  calls.foldl (fun s c => (runCall s c).2) defs

/-! ### Concrete fixtures used by the witnesses and examples -/

/-- Echo handler: returns the very argument object it received. -/
def echoHandler : Handler := fun args => args

/-- The README example: `create` allows exactly the actors whose `actor`
field is the string "admin". -/
def createHandler : Handler := fun args =>
  match args with
  | Value.vArgs (Value.vStr role) _ _ => Value.vBool (role = "admin")
  | _ => Value.vBool false

/-- An asynchronous handler: returns a pending boolean. -/
def asyncHandler : Handler := fun _ => Value.vPromise (Value.vBool true)

/-- A handler returning the non-boolean sentinel `0`. -/
def zeroHandler : Handler := fun _ => Value.vNum 0

def postDefinition : PermissionDefinition :=
  createPermissionDefinition "post"
    [("create", createHandler), ("edit", echoHandler)]

/-- A second definition under the same resource name (last-write-wins). -/
def postDefinitionB : PermissionDefinition :=
  createPermissionDefinition "post" [("publish", zeroHandler)]

/-- An all-asynchronous variant of `postDefinition`, same action names. -/
def postDefinitionAsync : PermissionDefinition :=
  createPermissionDefinition "post"
    [("create", asyncHandler), ("edit", asyncHandler)]

def samplePermissions : Registry := createPermissions [postDefinition]

def samplePermissionsB : Registry :=
  createPermissions [postDefinition, postDefinitionB]

example :
    can samplePermissions "post" (Value.vStr "create")
      (mkArgs (Value.vStr "admin") Value.vUndefined Value.vUndefined)
      = .ok (.single (Value.vBool true)) := rfl

example :
    can samplePermissions "post" (Value.vStr "create")
      (mkArgs (Value.vStr "user") Value.vUndefined Value.vUndefined)
      = .ok (.single (Value.vBool false)) := rfl

example :
    get samplePermissions "missing"
      = .error (.unknownResource "missing") := rfl

/-! ### The claims -/

/-- C1: for a registered definition with resource name `R` and action `A`,
and a context `ctx = { actor, entity, attributes }`, the three dispatch
paths `can(R, A, ctx)`, `get(R).can(ctx.actor)[A](ctx.entity,
ctx.attributes)` and `can(R, ctx)[A]()` agree: each returns the stored
handler applied to that context. -/
theorem dispatch_paths_agree (defs : Registry) (resource action : String)
    (d : PermissionDefinition) (h : Handler)
    (actor entity attributes : Value)
    (hd : mapGet defs resource = some d)
    (hh : lookupHandler d.handlers action = some h) :
    singlePath defs resource action (mkArgs actor entity attributes)
        = some (h (mkArgs actor entity attributes))
    ∧ builderPath defs resource action actor entity attributes
        = singlePath defs resource action (mkArgs actor entity attributes)
    ∧ batchPath defs resource (mkArgs actor entity attributes) action
        = singlePath defs resource action (mkArgs actor entity attributes) := by
  have hc : mkArgs actor entity attributes ≠ Value.vUndefined := by
    simp [mkArgs]
  have h1 := singlePath_eval defs resource action
    (mkArgs actor entity attributes) d h hd hc hh
  have h2 := builderPath_eval defs resource action actor entity attributes
    d h hd hh
  have h3 := batchPath_eval defs resource action
    (mkArgs actor entity attributes) d h hd hh
  exact ⟨h1, by rw [h2, h1], by rw [h3, h1]⟩

/-- Witness for C1: on the sample registry's `post`/`edit` (an echo
handler), the three paths all return the assembled context. -/
theorem dispatch_paths_agree_witness :
    mapGet samplePermissions "post" = some postDefinition
    ∧ lookupHandler postDefinition.handlers "edit" = some echoHandler
    ∧ (singlePath samplePermissions "post" "edit"
          (mkArgs (Value.vStr "2") (Value.vObj 1) Value.vNull)
        = some (echoHandler (mkArgs (Value.vStr "2") (Value.vObj 1)
            Value.vNull))
      ∧ builderPath samplePermissions "post" "edit" (Value.vStr "2")
          (Value.vObj 1) Value.vNull
        = singlePath samplePermissions "post" "edit"
            (mkArgs (Value.vStr "2") (Value.vObj 1) Value.vNull)
      ∧ batchPath samplePermissions "post"
          (mkArgs (Value.vStr "2") (Value.vObj 1) Value.vNull) "edit"
        = singlePath samplePermissions "post" "edit"
            (mkArgs (Value.vStr "2") (Value.vObj 1) Value.vNull)) :=
  ⟨rfl, rfl,
   dispatch_paths_agree samplePermissions "post" "edit" postDefinition
     echoHandler (Value.vStr "2") (Value.vObj 1) Value.vNull rfl rfl⟩

/-- C3: for a resource name absent from the registry, `get` and `can` (in
both call shapes, i.e. for every second and third argument) throw the
unknown-resource error, whose message names the offending resource. -/
theorem unknown_resource_fails (defs : Registry) (resource : String)
    (hd : mapGet defs resource = none) :
    get defs resource = .error (.unknownResource resource)
    ∧ (∀ actionOrCtx ctx, can defs resource actionOrCtx ctx
        = .error (.unknownResource resource))
    ∧ (∃ s t, (PermError.unknownResource resource).message
        = s ++ resource ++ t) := by
  refine ⟨get_unknown_resource _ _ hd,
    fun actionOrCtx ctx => can_unknown_resource _ _ _ _ hd,
    ⟨"No permission definition for resource: ", "", ?_⟩⟩
  simp [PermError.message]

/-- Witness for C3: the sample registry has no resource "missing". -/
theorem unknown_resource_fails_witness :
    mapGet samplePermissions "missing" = none
    ∧ get samplePermissions "missing"
        = .error (.unknownResource "missing")
    ∧ can samplePermissions "missing" (Value.vStr "create")
          (mkArgs (Value.vStr "admin") Value.vUndefined Value.vUndefined)
        = .error (.unknownResource "missing")
    ∧ (∃ s t, (PermError.unknownResource "missing").message
        = s ++ "missing" ++ t) :=
  ⟨rfl,
   (unknown_resource_fails samplePermissions "missing" rfl).1,
   (unknown_resource_fails samplePermissions "missing" rfl).2.1
     (Value.vStr "create")
     (mkArgs (Value.vStr "admin") Value.vUndefined Value.vUndefined),
   (unknown_resource_fails samplePermissions "missing" rfl).2.2⟩

/-- C4: for a registered resource and an action name absent from its
handler mapping, the three-argument call throws the unknown-action error,
whose message names both the action and the resource. -/
theorem unknown_action_fails (defs : Registry) (resource action : String)
    (ctx : Value) (d : PermissionDefinition)
    (hd : mapGet defs resource = some d) (hc : ctx ≠ Value.vUndefined)
    (hh : lookupHandler d.handlers action = none) :
    can defs resource (Value.vStr action) ctx
      = .error (.unknownAction action resource)
    ∧ (∃ s t u, (PermError.unknownAction action resource).message
        = s ++ action ++ t ++ resource ++ u) := by
  refine ⟨can_single_unknown_action _ _ _ _ _ hd hc hh,
    ⟨"No handler for action '", "' on resource '", "'", ?_⟩⟩
  simp [PermError.message]

/-- Witness for C4: "publish" is not an action of the sample `post`
definition. -/
theorem unknown_action_fails_witness :
    mapGet samplePermissions "post" = some postDefinition
    ∧ (mkArgs (Value.vStr "admin") Value.vUndefined Value.vUndefined
        ≠ Value.vUndefined)
    ∧ lookupHandler postDefinition.handlers "publish" = none
    ∧ (can samplePermissions "post" (Value.vStr "publish")
          (mkArgs (Value.vStr "admin") Value.vUndefined Value.vUndefined)
        = .error (.unknownAction "publish" "post")
      ∧ (∃ s t u, (PermError.unknownAction "publish" "post").message
          = s ++ "publish" ++ t ++ "post" ++ u)) :=
  ⟨rfl, by decide, rfl,
   unknown_action_fails samplePermissions "post" "publish"
     (mkArgs (Value.vStr "admin") Value.vUndefined Value.vUndefined)
     postDefinition rfl (by decide) rfl⟩

/-- C2: with the resource registered, `can` takes the single-action shape
(bare handler result or unknown-action throw) exactly when the second
argument is a string and the third argument is defined; every other
combination — a string-keyed object as second argument, or a call whose
third argument is undefined (in JS, any two-argument call) — falls through
to the batch shape built from the second argument itself. -/
theorem dispatch_shape_iff (defs : Registry) (resource : String)
    (actionOrCtx ctx : Value) (d : PermissionDefinition)
    (hd : mapGet defs resource = some d) :
    selectsSingleShape (can defs resource actionOrCtx ctx)
      ↔ (∃ s, actionOrCtx = Value.vStr s) ∧ ctx ≠ Value.vUndefined := by
  constructor
  · intro hsel
    by_contra hnot
    have hno : ∀ s, actionOrCtx = Value.vStr s → ctx = Value.vUndefined := by
      intro s hs
      by_contra hc
      exact hnot ⟨⟨s, hs⟩, hc⟩
    rw [can_batch_eval _ _ _ _ _ hd hno] at hsel
    rcases hsel with ⟨v, hv⟩ | ⟨a, r, he⟩
    · exact CanOutcome.noConfusion (Except.ok.inj hv)
    · exact Except.noConfusion he
  · rintro ⟨⟨s, rfl⟩, hc⟩
    cases hh : lookupHandler d.handlers s with
    | some h =>
        exact Or.inl ⟨h ctx, by
          rw [can_single_eval _ _ _ _ _ _ hd hc hh]⟩
    | none =>
        exact Or.inr ⟨s, resource, by
          rw [can_single_unknown_action _ _ _ _ _ hd hc hh]⟩

/-- Witness for C2: a string second argument with a defined (object) third
argument selects the single-action shape on the sample registry. -/
theorem dispatch_shape_iff_witness :
    mapGet samplePermissions "post" = some postDefinition
    ∧ (selectsSingleShape (can samplePermissions "post"
          (Value.vStr "create")
          (mkArgs (Value.vStr "admin") Value.vUndefined Value.vUndefined))
        ↔ (∃ s, Value.vStr "create" = Value.vStr s)
          ∧ mkArgs (Value.vStr "admin") Value.vUndefined Value.vUndefined
            ≠ Value.vUndefined) :=
  ⟨rfl,
   dispatch_shape_iff samplePermissions "post" (Value.vStr "create")
     (mkArgs (Value.vStr "admin") Value.vUndefined Value.vUndefined)
     postDefinition rfl⟩

/-- C6: every dispatch path returns the stored handler's return value with
zero transformation, whatever value the handler produces (`0`, `""`,
`null`, `undefined`, an object, a pending value): the single-action shape
returns `h ctx` itself, each batch closure returns `h` applied to the batch
context, and each builder method returns `h` applied to the assembled
argument object. -/
theorem handler_result_passthrough (defs : Registry)
    (resource action : String) (d : PermissionDefinition) (h : Handler)
    (hd : mapGet defs resource = some d)
    (hh : lookupHandler d.handlers action = some h) :
    (∀ ctx, ctx ≠ Value.vUndefined →
        can defs resource (Value.vStr action) ctx = .ok (.single (h ctx)))
    ∧ (∀ ctx, batchPath defs resource ctx action = some (h ctx))
    ∧ (∀ actor entity attributes,
        builderPath defs resource action actor entity attributes
          = some (h (mkArgs actor entity attributes))) :=
  ⟨fun ctx hc => can_single_eval defs resource action ctx d h hd hc hh,
   fun ctx => batchPath_eval defs resource action ctx d h hd hh,
   fun actor entity attributes =>
     builderPath_eval defs resource action actor entity attributes d h
       hd hh⟩

/-- Witness for C6: the overriding `post` definition's `publish` handler
returns the number `0`, and every path hands back exactly that value. -/
theorem handler_result_passthrough_witness :
    mapGet samplePermissionsB "post" = some postDefinitionB
    ∧ lookupHandler postDefinitionB.handlers "publish" = some zeroHandler
    ∧ can samplePermissionsB "post" (Value.vStr "publish") (Value.vObj 7)
        = .ok (.single (zeroHandler (Value.vObj 7)))
    ∧ batchPath samplePermissionsB "post" (Value.vObj 7) "publish"
        = some (zeroHandler (Value.vObj 7))
    ∧ builderPath samplePermissionsB "post" "publish" (Value.vStr "u")
          Value.vNull Value.vUndefined
        = some (zeroHandler
            (mkArgs (Value.vStr "u") Value.vNull Value.vUndefined)) :=
  ⟨rfl, rfl,
   (handler_result_passthrough samplePermissionsB "post" "publish"
     postDefinitionB zeroHandler rfl rfl).1 (Value.vObj 7) (by decide),
   (handler_result_passthrough samplePermissionsB "post" "publish"
     postDefinitionB zeroHandler rfl rfl).2.1 (Value.vObj 7),
   (handler_result_passthrough samplePermissionsB "post" "publish"
     postDefinitionB zeroHandler rfl rfl).2.2 (Value.vStr "u")
     Value.vNull Value.vUndefined⟩

/-- C10: for a registered resource and any string `s`, the call
`can(R, s, undefined)` — third argument supplied but undefined — takes the
batch shape: it never throws (no unknown-action error even when `s` names
no action), and its zero-argument closures forward the string `s` itself as
each handler's context. -/
theorem undefined_third_argument_is_batch (defs : Registry)
    (resource s : String) (d : PermissionDefinition)
    (hd : mapGet defs resource = some d) :
    can defs resource (Value.vStr s) Value.vUndefined
      = .ok (.batch (d.handlers.map (fun p =>
          (p.1, fun _ => p.2 (Value.vStr s)))))
    ∧ (∀ e, can defs resource (Value.vStr s) Value.vUndefined ≠ .error e)
    ∧ (∀ action h, lookupHandler d.handlers action = some h →
        batchPath defs resource (Value.vStr s) action
          = some (h (Value.vStr s))) := by
  have hb := can_batch_eval defs resource (Value.vStr s) Value.vUndefined
    d hd (fun _ _ => rfl)
  refine ⟨hb, ?_, fun action h hh =>
    batchPath_eval defs resource action (Value.vStr s) d h hd hh⟩
  intro e he
  rw [hb] at he
  exact Except.noConfusion he

/-- Witness for C10: "nosuchaction" names no action of the sample `post`
definition, yet `can("post", "nosuchaction", undefined)` does not throw,
and the batch closures receive the string itself. -/
theorem undefined_third_argument_is_batch_witness :
    mapGet samplePermissions "post" = some postDefinition
    ∧ can samplePermissions "post" (Value.vStr "nosuchaction")
        Value.vUndefined
        ≠ .error (.unknownAction "nosuchaction" "post")
    ∧ batchPath samplePermissions "post" (Value.vStr "nosuchaction") "edit"
        = some (echoHandler (Value.vStr "nosuchaction")) :=
  ⟨rfl,
   (undefined_third_argument_is_batch samplePermissions "post"
     "nosuchaction" postDefinition rfl).2.1
     (.unknownAction "nosuchaction" "post"),
   (undefined_third_argument_is_batch samplePermissions "post"
     "nosuchaction" postDefinition rfl).2.2 "edit" echoHandler rfl⟩

/-- C5: when two input definitions share a resource name, the later one by
position wins: `createPermissions` registers it under that name, and `get`
and `can` dispatch exactly as in a registry holding only the later
definition. -/
theorem later_definition_wins (pre mid post : List PermissionDefinition)
    (d1 d2 : PermissionDefinition) (hr : d2.resource = d1.resource)
    (hpost : ∀ d ∈ post, d.resource ≠ d1.resource) :
    mapGet (createPermissions (pre ++ d1 :: mid ++ d2 :: post)) d1.resource
      = some d2
    ∧ get (createPermissions (pre ++ d1 :: mid ++ d2 :: post)) d1.resource
      = get (createPermissions [d2]) d1.resource
    ∧ ∀ actionOrCtx ctx,
        can (createPermissions (pre ++ d1 :: mid ++ d2 :: post)) d1.resource
            actionOrCtx ctx
          = can (createPermissions [d2]) d1.resource actionOrCtx ctx := by
  have hpostrev :
      post.reverse.find? (fun d => d.resource = d1.resource) = none := by
    rw [List.find?_eq_none]
    intro x hx
    simp only [decide_eq_true_eq]
    exact hpost x (List.mem_reverse.mp hx)
  have hmain :
      mapGet (createPermissions (pre ++ d1 :: mid ++ d2 :: post)) d1.resource
        = some d2 := by
    rw [mapGet_createPermissions]
    unfold latestDefinition
    simp only [List.reverse_append, List.reverse_cons, List.find?_append,
      List.append_assoc, hpostrev, Option.none_or, List.find?_singleton,
      hr, decide_True, if_true, Option.or_some]
  have hsmall :
      mapGet (createPermissions [d2]) d1.resource = some d2 := by
    show mapGet [(d2.resource, d2)] d1.resource = some d2
    rw [mapGet_cons]
    simp [hr]
  have heq : mapGet (createPermissions (pre ++ d1 :: mid ++ d2 :: post))
      d1.resource = mapGet (createPermissions [d2]) d1.resource := by
    rw [hmain, hsmall]
  exact ⟨hmain, get_congr _ _ _ heq,
    fun actionOrCtx ctx => can_congr _ _ _ _ _ heq⟩

/-- Witness for C5: registering two `post` definitions in order leaves only
the second observable. -/
theorem later_definition_wins_witness :
    postDefinitionB.resource = postDefinition.resource
    ∧ mapGet (createPermissions
        ([] ++ postDefinition :: [] ++ postDefinitionB :: []))
        postDefinition.resource = some postDefinitionB
    ∧ can (createPermissions
          ([] ++ postDefinition :: [] ++ postDefinitionB :: []))
          postDefinition.resource (Value.vStr "create")
          (mkArgs (Value.vStr "admin") Value.vUndefined Value.vUndefined)
      = can (createPermissions [postDefinitionB]) postDefinition.resource
          (Value.vStr "create")
          (mkArgs (Value.vStr "admin") Value.vUndefined Value.vUndefined) :=
  ⟨rfl,
   (later_definition_wins [] [] [] postDefinition postDefinitionB rfl
     (by simp)).1,
   (later_definition_wins [] [] [] postDefinition postDefinitionB rfl
     (by simp)).2.2 (Value.vStr "create")
     (mkArgs (Value.vStr "admin") Value.vUndefined Value.vUndefined)⟩

/-- C7: `get(R).can(actor)` synthesizes an invoker with exactly one method
per action name of the resolved definition (same names, same order), and
each method applied to two positional values — `Value.vUndefined` standing
for an omitted argument — invokes the stored handler on
`{ actor, entity, attributes }`. -/
theorem builder_invoker_shape (defs : Registry) (resource : String)
    (d : PermissionDefinition) (hd : mapGet defs resource = some d) :
    ∃ acc, get defs resource = .ok acc
    ∧ ∀ actor,
        (acc.can actor).map Prod.fst = d.handlers.map Prod.fst
        ∧ ∀ action h, lookupHandler d.handlers action = some h →
            ∃ m, (acc.can actor).find? (fun p => p.1 = action)
                = some (action, m)
            ∧ ∀ entity attributes,
                m entity attributes = h (mkArgs actor entity attributes) := by
  refine ⟨_, get_eval _ _ _ hd, fun actor => ⟨?_, ?_⟩⟩
  · show (d.handlers.map (fun p =>
      (p.1, fun entity attributes =>
        p.2 (mkArgs actor entity attributes)))).map Prod.fst
      = d.handlers.map Prod.fst
    rw [List.map_map]
    rfl
  · intro action h hh
    obtain ⟨p, hp, hp1, hp2⟩ := lookupHandler_some_split _ _ _ hh
    refine ⟨fun entity attributes => p.2 (mkArgs actor entity attributes),
      ?_, fun entity attributes => by rw [hp2]⟩
    show (d.handlers.map (fun p =>
      (p.1, fun entity attributes =>
        p.2 (mkArgs actor entity attributes)))).find?
        (fun q => q.1 = action)
      = some (action, fun entity attributes =>
          p.2 (mkArgs actor entity attributes))
    rw [find?_fst_map (fun (p : String × Handler) =>
      (fun (entity attributes : Value) =>
        p.2 (mkArgs actor entity attributes))), hp]
    rw [Option.map_some', hp1]

/-- Witness for C7: the sample `post` invoker has methods `create` and
`edit`, and `edit` invoked with one argument omitted hands the handler
`entity` present and `attributes` undefined. -/
theorem builder_invoker_shape_witness :
    mapGet samplePermissions "post" = some postDefinition
    ∧ ∃ acc, get samplePermissions "post" = .ok acc
      ∧ ((acc.can (Value.vStr "2")).map Prod.fst
          = postDefinition.handlers.map Prod.fst
        ∧ ∃ m, (acc.can (Value.vStr "2")).find? (fun p => p.1 = "edit")
            = some ("edit", m)
          ∧ ∀ entity attributes, m entity attributes
              = echoHandler (mkArgs (Value.vStr "2") entity attributes)) := by
  refine ⟨rfl, ?_⟩
  obtain ⟨acc, hacc, hall⟩ :=
    builder_invoker_shape samplePermissions "post" postDefinition rfl
  obtain ⟨hkeys, hmeth⟩ := hall (Value.vStr "2")
  obtain ⟨m, hm, hinv⟩ := hmeth "edit" echoHandler rfl
  exact ⟨acc, hacc, hkeys, m, hm, hinv⟩

/-- C8: both error kinds are thrown synchronously: the failing lookup
yields `Except.error` — never an `ok` result, in particular never a pending
`vPromise` — and is decided before any handler could run: the same
unknown-action error comes back when every handler of the definition is
replaced (say by asynchronous ones), and an unknown resource fails `get`
and both shapes of `can` without consulting any handler at all. -/
theorem errors_synchronous (defs defs' : Registry) (resource action : String)
    (ctx : Value) (d d' : PermissionDefinition)
    (hd : mapGet defs resource = some d)
    (hd' : mapGet defs' resource = some d')
    (hkeys : d.handlers.map Prod.fst = d'.handlers.map Prod.fst)
    (hh : lookupHandler d.handlers action = none)
    (hc : ctx ≠ Value.vUndefined) :
    can defs resource (Value.vStr action) ctx
      = .error (.unknownAction action resource)
    ∧ can defs' resource (Value.vStr action) ctx
      = .error (.unknownAction action resource)
    ∧ (∀ o, can defs resource (Value.vStr action) ctx ≠ .ok o)
    ∧ (∀ defs₀ actionOrCtx ctx₀, mapGet (defs₀ : Registry) resource = none →
        get defs₀ resource = .error (.unknownResource resource)
        ∧ can defs₀ resource actionOrCtx ctx₀
            = .error (.unknownResource resource)
        ∧ ∀ o, can defs₀ resource actionOrCtx ctx₀ ≠ .ok o) := by
  have hh' : lookupHandler d'.handlers action = none := by
    rw [lookupHandler_eq_none_iff] at hh ⊢
    rw [← hkeys]
    exact hh
  have h1 := can_single_unknown_action defs resource action ctx d hd hc hh
  refine ⟨h1, can_single_unknown_action defs' resource action ctx d'
    hd' hc hh', ?_, ?_⟩
  · intro o ho
    rw [h1] at ho
    exact Except.noConfusion ho
  · intro defs₀ actionOrCtx ctx₀ h0
    have h2 := can_unknown_resource defs₀ resource actionOrCtx ctx₀ h0
    refine ⟨get_unknown_resource _ _ h0, h2, fun o ho => ?_⟩
    rw [h2] at ho
    exact Except.noConfusion ho

/-- Witness for C8: "publish" is unknown both on the sample definition and
on its all-asynchronous variant, and the empty registry knows no "post". -/
theorem errors_synchronous_witness :
    mapGet samplePermissions "post" = some postDefinition
    ∧ mapGet (createPermissions [postDefinitionAsync]) "post"
        = some postDefinitionAsync
    ∧ postDefinition.handlers.map Prod.fst
        = postDefinitionAsync.handlers.map Prod.fst
    ∧ (can samplePermissions "post" (Value.vStr "publish") (Value.vObj 3)
        = .error (.unknownAction "publish" "post")
      ∧ can (createPermissions [postDefinitionAsync]) "post"
          (Value.vStr "publish") (Value.vObj 3)
        = .error (.unknownAction "publish" "post"))
    ∧ (get ([] : Registry) "post" = .error (.unknownResource "post")
      ∧ ∀ o, can ([] : Registry) "post" (Value.vObj 3) Value.vUndefined
          ≠ .ok o) := by
  have ht := errors_synchronous samplePermissions
    (createPermissions [postDefinitionAsync]) "post" "publish"
    (Value.vObj 3) postDefinition postDefinitionAsync rfl rfl rfl rfl
    (by decide)
  have h0 := ht.2.2.2 ([] : Registry) (Value.vObj 3) Value.vUndefined rfl
  exact ⟨rfl, rfl, rfl, ⟨ht.1, ht.2.1⟩, ⟨h0.1, h0.2.2⟩⟩

/-- C9: the registry is write-once-then-read-only: running any sequence of
public calls (`get`, either shape of `can`, invoking synthesized methods)
leaves the closed-over resource→definition mapping exactly as
`createPermissions` built it. -/
theorem registry_immutable (initialDefs : List PermissionDefinition)
    (calls : List ApiCall) :
    runCalls (createPermissions initialDefs) calls
      = createPermissions initialDefs := by
  generalize createPermissions initialDefs = defs
  induction calls generalizing defs with
  | nil => rfl
  | cons c t ih =>
      have hstep : (runCall defs c).2 = defs := by cases c <;> rfl
      show ((c :: t).foldl (fun s c => (runCall s c).2) defs) = defs
      rw [List.foldl_cons, hstep]
      exact ih defs

end AccessMini
